import Mathlib

/-!
Shallow embedding of the generative simulation engine of
`src/generate_vehicles.py` (a synthetic vehicle border-crossing dataset
generator), together with proofs of the specification claims about it.

The shared `numpy.random.Generator` is modelled as an abstract state `Rng`:
a position into two fixed entropy streams, one of raw naturals (from which
bounded integer draws and 53-bit uniform floats are derived, exactly as
numpy derives them) and one of exponential variates (arbitrary non-negative
rationals, abstracting `Generator.exponential`).  Every sampling call reads
the stream at the current position and advances it, so the draw order is
explicit in the state threading, mirroring the single sequentially-mutated
generator of the source.  Floating-point values are modelled as rationals.
-/

/-- Abstract state of the shared pseudorandom generator: two entropy
streams and the current read position.  `nats` backs the integer and
uniform draws, `exps` backs the exponential draws (always non-negative,
as exponential variates are). -/
structure Rng where
  nats : Nat → Nat
  exps : Nat → Rat
  exps_nonneg : ∀ k, 0 ≤ exps k
  pos : Nat

/-- Advance the generator position by `k` draws. -/
def Rng.advance (g : Rng) (k : Nat) : Rng :=
  { g with pos := g.pos + k }

/-- Consume one raw natural from the entropy stream. -/
def Rng.next (g : Rng) : Nat × Rng :=
  (g.nats g.pos, g.advance 1)

/-- Consume one exponential variate (a non-negative rational),
modelling `rng.exponential(scale=1.0)`. -/
def Rng.nextExp (g : Rng) : Rat × Rng :=
  (g.exps g.pos, g.advance 1)

/-- Denominator of numpy double-precision uniforms: they are exactly the
multiples of `2 ^ (-53)` in `[0, 1)`. -/
def M53 : Nat := 2 ^ 53

/-- Model of `rng.random()`: a uniform draw in `[0, 1)`, i.e. a 53-bit
numerator over `2 ^ 53`.  The value `0` is attainable, as in numpy. -/
def Rng.random (g : Rng) : Rat × Rng :=
  (((g.nats g.pos % M53 : Nat) : Rat) / (M53 : Rat), g.advance 1)

/-- Model of `rng.integers(lo, hi)` on naturals (`lo < hi`): a draw in
`[lo, hi)`. -/
def Rng.natBetween (g : Rng) (lo hi : Nat) : Nat × Rng :=
  (lo + g.nats g.pos % (hi - lo), g.advance 1)

/-- Model of `rng.integers(lo, hi)` on integers (`lo < hi`): a draw in
`[lo, hi)`. -/
def Rng.intBetween (g : Rng) (lo hi : Int) : Int × Rng :=
  (lo + (g.nats g.pos : Int) % (hi - lo), g.advance 1)

/-- Model of `rng.uniform(lo, hi)`: `lo + (hi - lo) * u` with `u`
uniform in `[0, 1)`. -/
def Rng.uniformIn (g : Rng) (lo hi : Rat) : Rat × Rng :=
  let (u, g1) := g.random
  (lo + (hi - lo) * u, g1)

/-- Perform `n` successive draws with the one-step sampler `f`,
threading the generator (models a `size=n` vectorized numpy call, which
consumes the stream element-wise in order). -/
def drawList (g : Rng) (n : Nat) (f : Rng → α × Rng) : List α × Rng :=
  match n with
  | 0 => ([], g)
  | Nat.succ m =>
    let (x, g1) := f g
    let (xs, g2) := drawList g1 m f
    (x :: xs, g2)

/-- Thread the generator through a per-element sampler over a list
(models a Python list comprehension of scalar sampling calls). -/
def mapRng (g : Rng) (xs : List α) (f : Rng → α → β × Rng) : List β × Rng :=
  match xs with
  | [] => ([], g)
  | x :: rest =>
    let (y, g1) := f g x
    let (ys, g2) := mapRng g1 rest f
    (y :: ys, g2)

/-- Model of `rng.choice(xs)` (uniform over a non-empty list; the default
is only reached for an empty list, which numpy rejects). -/
def choiceU (xs : List α) (d : α) (g : Rng) : α × Rng :=
  let (r, g1) := g.next
  (xs.getD (r % xs.length) d, g1)

/-- Inverse-CDF lookup used by `rng.choice(xs, p=ws)`: walk the weights,
subtracting, until the uniform draw falls inside a cell. -/
def pickWeighted (d : α) : List α → List Rat → Rat → α
  | [], _, _ => d
  | _ :: _, [], _ => d
  | x :: xs, w :: ws, u => if u < w then x else pickWeighted d xs ws (u - w)

/-- Model of a single weighted `rng.choice(xs, p=ws)` draw. -/
def weightedChoice (xs : List α) (ws : List Rat) (d : α) (g : Rng) : α × Rng :=
  let (u, g1) := g.random
  (pickWeighted d xs ws u, g1)

/-- Model of `np.clip(x, lo, hi)` for `lo ≤ hi`. -/
def clipInt (x lo hi : Int) : Int := max lo (min x hi)

/-- Swap the rows at positions `i` and `j`, the effect of
`df.iloc[[i, j]] = df.iloc[[j, i]].to_numpy()` for in-range positions. -/
def swapAt (l : List α) (i j : Nat) : List α :=
  match l.get? i, l.get? j with
  | some a, some b => (l.set i b).set j a
  | _, _ => l

/-- Model of `rng.choice(pool, size=n, replace=False)`: draw `n` distinct
elements by repeatedly picking one remaining element and removing it. -/
def sampleNoReplace (g : Rng) (pool : List Nat) (n : Nat) : List Nat × Rng :=
  match n with
  | 0 => ([], g)
  | Nat.succ m =>
    if pool.isEmpty then ([], g)
    else
      let (r, g1) := g.next
      let k := r % pool.length
      let x := pool.getD k 0
      let (rest, g2) := sampleNoReplace g1 (pool.eraseIdx k) m
      (x :: rest, g2)

/-- Embedding of `apply_ingest_misplacements`: unless a no-op guard fires,
choose `n = min(per_day, len(df))` distinct positions, draw offsets in
`[-max_offset, max_offset]`, clip the targets into range, and swap each
chosen position with its target (skipping identical pairs). -/
def apply_ingest_misplacements (g : Rng) (df : List α) (perDay maxOffset : Int) :
    List α × Rng :=
  if perDay ≤ 0 ∨ maxOffset ≤ 0 ∨ df.isEmpty then (df, g)
  else
    let n := min perDay.toNat df.length
    let (idx, g1) := sampleNoReplace g (List.range df.length) n
    let (offsets, g2) := drawList g1 n (fun h => h.intBetween (-maxOffset) (maxOffset + 1))
    let newIdx := (idx.zip offsets).map
      (fun p => (clipInt ((p.1 : Int) + p.2) 0 ((df.length : Int) - 1)).toNat)
    ((idx.zip newIdx).foldl
      (fun acc p => if p.1 = p.2 then acc else swapAt acc p.1 p.2) df, g2)

/-- A concrete generator state (all-zero streams), used to instantiate
universally quantified theorems at a specific input. -/
def rngZero : Rng :=
  { nats := fun _ => 0, exps := fun _ => 0, exps_nonneg := fun _ => le_refl 0, pos := 0 }

/-- Running cumulative sums starting from `acc` (models `np.cumsum`). -/
def cumsumFrom (acc : Rat) : List Rat → List Rat
  | [] => []
  | x :: xs => (acc + x) :: cumsumFrom (acc + x) xs

/-- Embedding of `sequential_seconds`: for `n > 0` draw `n` exponential
gaps, take the cumulative sum, rescale so the final cumulative value maps
to `86399`, and truncate to integer seconds (the scaled values are
non-negative, so the `astype(int)` truncation is the floor).  `n <= 0`
yields the empty sequence and an all-zero cumulative sum is guarded,
yielding the all-zero sequence. -/
def sequential_seconds (g : Rng) (n : Int) : List Nat × Rng :=
  if n ≤ 0 then ([], g)
  else
    let (gaps, g1) := drawList g n.toNat Rng.nextExp
    let cum := cumsumFrom 0 gaps
    let last := cum.getLastD 0
    if last = 0 then (List.replicate n.toNat 0, g1)
    else (cum.map (fun c => (Rat.floor (c / last * 86399)).toNat), g1)

/-- The fixed country-code groups of the source (`NEAR`, `MID`, `FAR`,
`BALKAN`, `OTHER_EUROPE`). -/
def NEAR : List String := ["DE", "FR", "IT", "AT", "LI"]

def MID : List String := ["NL", "BE", "LU", "DK", "CZ", "PL", "SK", "HU", "SI", "HR"]

def FAR : List String :=
  ["ES", "PT", "IE", "SE", "FI", "EE", "LV", "LT", "RO", "BG", "GR", "CY", "MT"]

def BALKAN : List String := ["AL", "BA", "RS", "ME", "MK"]

def OTHER_EUROPE : List String :=
  ["NO", "IS", "GB", "UA", "MD", "BY", "TR", "SM", "VA", "MC", "AD"]

/-- The fixed `ISO1_MAP` lookup table, in source order. -/
def ISO1_MAP : List (String × String) :=
  [("DE", "D"), ("FR", "F"), ("IT", "I"), ("AT", "A"), ("LI", "L"),
   ("NL", "N"), ("BE", "B"), ("LU", "L"), ("DK", "D"), ("CZ", "C"),
   ("PL", "P"), ("SK", "S"), ("HU", "H"), ("SI", "S"), ("HR", "H"),
   ("ES", "E"), ("PT", "P"), ("IE", "I"), ("SE", "S"), ("FI", "F"),
   ("EE", "E"), ("LV", "L"), ("LT", "L"), ("RO", "R"), ("BG", "B"),
   ("GR", "G"), ("CY", "C"), ("MT", "M"), ("AL", "A"), ("BA", "B"),
   ("RS", "R"), ("ME", "M"), ("MK", "M"), ("NO", "N"), ("IS", "I"),
   ("GB", "G"), ("UA", "U"), ("MD", "M"), ("BY", "B"), ("TR", "T"),
   ("SM", "S"), ("VA", "V"), ("MC", "M"), ("AD", "A")]

/-- Embedding of `to_iso1`: the empty code and length-1 codes pass through;
other codes are looked up in `ISO1_MAP`, falling back to the first
character. -/
def to_iso1 (country : String) : String :=
  if country = "" then country
  else if country.length = 1 then country
  else (ISO1_MAP.lookup country).getD (country.take 1)

/-- A persistent vehicle identity from a standout pool (a row of the
`commuters` / `chilled` / `smugglers` frames, which have no `ts` or
location column). -/
structure Vehicle where
  country_of_registration : String
  license_plate : String
  vehicle_type : String
  colour : String
  brand : String
deriving DecidableEq

/-- A crossing-event row.  `ts` is the absolute timestamp in seconds
(UTC); a `none` plate models a pandas NaN cell. -/
structure Row where
  ts : Nat
  country_of_registration : String
  license_plate : Option String
  vehicle_type : String
  colour : String
  brand : String
  location_of_crossing : String
deriving DecidableEq

/-- Split a character list at its first dash, the effect of Python
`s.split("-", 1)` for a single-character separator: `none` when no dash
occurs (in which case pandas yields a missing value). -/
def splitDash : List Char → Option (List Char × List Char)
  | [] => none
  | c :: cs =>
    if c = '-' then some ([], cs)
    else (splitDash cs).map (fun p => (c :: p.1, p.2))

/-- Per-row effect of `apply_iso1_codes`: the country column is rewritten
through `to_iso1`, and the plate is rebuilt as the mapped country code, a
dash, and the part of the old plate after its first dash (a missing or
dashless plate propagates to a missing plate, as NaN does in pandas). -/
def iso1Row (r : Row) : Row :=
  { r with
    country_of_registration := to_iso1 r.country_of_registration,
    license_plate := (r.license_plate.bind (fun p => splitDash p.toList)).map
      (fun p => to_iso1 r.country_of_registration ++ "-" ++ String.mk p.2) }

/-- Embedding of `apply_iso1_codes` (the empty frame is returned as is). -/
def apply_iso1_codes (df : List Row) : List Row :=
  if df.isEmpty then df else df.map iso1Row

/-- The fixed near-corridor shares of `build_country_weights`
(`DE 0.42, FR 0.18, IT 0.20, AT 0.08, LI 0.02`), in source order. -/
def NEAR_WEIGHTS : List (String × Rat) :=
  [("DE", 0.42), ("FR", 0.18), ("IT", 0.20), ("AT", 0.08), ("LI", 0.02)]

/-- Uniform range for a far-tier country, with the `GR` and `SE`
overrides of the source. -/
def farRange (c : String) : Rat × Rat :=
  if c = "GR" then (0.005, 0.02)
  else if c = "SE" then (0.01, 0.02)
  else (0.003, 0.015)

/-- Uniform range for a Balkan country, with the `AL` override. -/
def balkanRange (c : String) : Rat × Rat :=
  if c = "AL" then (0.01, 0.03) else (0.005, 0.02)

/-- Draw one uniform weight per country of a group, in order, through the
shared generator (one loop iteration of `build_country_weights`). -/
def drawGroupWeights (g : Rng) (cs : List String) (rg : String → Rat × Rat) :
    List (String × Rat) × Rng :=
  mapRng g cs (fun h c =>
    let (u, h1) := h.uniformIn (rg c).1 (rg c).2
    ((c, u), h1))

/-- Embedding of `build_country_weights`: fixed near-corridor weights,
then per-country uniform draws for the mid, far, Balkan and other-Europe
groups in source order, then normalization of the full vector. -/
def build_country_weights (g : Rng) : (List String × List Rat) × Rng :=
  let (mid, g1) := drawGroupWeights g MID (fun _ => (0.005, 0.02))
  let (far, g2) := drawGroupWeights g1 FAR farRange
  let (balkan, g3) := drawGroupWeights g2 BALKAN balkanRange
  let (other, g4) := drawGroupWeights g3 OTHER_EUROPE (fun _ => (0.002, 0.012))
  let w := NEAR_WEIGHTS ++ mid ++ far ++ balkan ++ other
  let weights := w.map (fun p => p.2)
  let s := weights.sum
  ((w.map (fun p => p.1), weights.map (fun x => x / s)), g4)

/-- The fixed vehicle-type distribution (`VEHICLE_TYPES`). -/
def VEHICLE_TYPES : List (String × Rat) :=
  [("passenger_car", 0.62), ("delivery_van", 0.13), ("truck", 0.12),
   ("motorcycle", 0.08), ("bus", 0.03), ("other", 0.02)]

/-- The fixed colour palette (`COLOURS`). -/
def COLOURS : List String :=
  ["white", "black", "silver", "blue", "red", "grey", "green", "brown", "yellow"]

/-- The per-type brand lists (`BRANDS_BY_TYPE`). -/
def BRANDS_BY_TYPE : List (String × List String) :=
  [("passenger_car",
    ["VW", "BMW", "Mercedes", "Audi", "Skoda", "Toyota", "Renault", "Peugeot",
     "Fiat", "Ford", "Tesla", "Opel", "Seat", "Hyundai"]),
   ("delivery_van", ["VW", "Mercedes", "Ford", "Renault", "Fiat", "Peugeot", "Iveco"]),
   ("truck", ["Volvo", "Scania", "MAN", "DAF", "Mercedes", "Iveco"]),
   ("motorcycle", ["Yamaha", "Honda", "Kawasaki", "BMW", "Suzuki", "Ducati", "KTM"]),
   ("bus", ["MAN", "Mercedes", "Volvo", "Iveco", "Scania"]),
   ("other", ["Generic"])]

/-- Border crossing points with their corridor country (`CROSSINGS`). -/
def CROSSINGS : List (String × String) :=
  [("Basel", "DE"), ("Rheinfelden", "DE"), ("Kreuzlingen", "DE"),
   ("Schaffhausen", "DE"), ("Bargen", "DE"),
   ("Geneve", "FR"), ("Bardonnex", "FR"), ("Vallorbe", "FR"), ("Boncourt", "FR"),
   ("Chiasso", "IT"), ("Brusata (Mendrisio)", "IT"), ("Brissago", "IT"),
   ("St. Margrethen", "AT"), ("Au (SG)", "AT"),
   ("Schaanwald", "LI"), ("Bendern", "LI")]

/-- The crossings of one corridor country, in source order (one entry of
the `CORRIDOR_TO_CROSSINGS` grouping). -/
def corridorCrossings (cc : String) : List String :=
  (CROSSINGS.filter (fun p => p.2 == cc)).map (fun p => p.1)

/-- All crossing names (`ALL_CROSSINGS`). -/
def ALL_CROSSINGS : List String := CROSSINGS.map (fun p => p.1)

/-- The 24-letter plate alphabet excluding `I` and `O`. -/
def PLATE_ALPHABET : List Char := "ABCDEFGHJKLMNPQRSTUVWXYZ".toList

/-- Embedding of `choose_vehicle_type`: `n` weighted draws over the
normalized fixed distribution. -/
def choose_vehicle_type (g : Rng) (n : Nat) : List String × Rng :=
  let types := VEHICLE_TYPES.map (fun p => p.1)
  let probs := VEHICLE_TYPES.map (fun p => p.2)
  let norm := probs.map (fun x => x / probs.sum)
  drawList g n (weightedChoice types norm "")

/-- Embedding of `choose_brand`: a uniform draw over the type-specific
brand list, falling back to `["Generic"]`. -/
def choose_brand (g : Rng) (vtype : String) : String × Rng :=
  choiceU ((BRANDS_BY_TYPE.lookup vtype).getD ["Generic"]) "" g

/-- Zero-pad a number below `10000` to four digits (the 04d format). -/
def pad4 (d : Nat) : String :=
  String.mk (List.replicate (4 - (toString d).length) '0') ++ toString d

/-- Embedding of `random_plate`: two letters from the restricted alphabet
and a zero-padded uniform integer in `[0, 10000)`. -/
def random_plate (g : Rng) (country : String) : String × Rng :=
  let (l1, g1) := choiceU PLATE_ALPHABET 'A' g
  let (l2, g2) := choiceU PLATE_ALPHABET 'A' g1
  let (digits, g3) := g2.natBetween 0 10000
  (country ++ "-" ++ String.mk [l1, l2] ++ pad4 digits, g3)

/-- Embedding of `choose_crossing`: a uniform draw over the corridor
crossings for corridor countries, over all crossings otherwise. -/
def choose_crossing (g : Rng) (country : String) : String × Rng :=
  if (corridorCrossings country).isEmpty then choiceU ALL_CROSSINGS "" g
  else choiceU (corridorCrossings country) "" g

/-- Day-of-week index of a timestamp in seconds UTC (`datetime.weekday`,
`0 = Monday`); day `0` (1970-01-01) was a Thursday. -/
def weekday (t : Nat) : Nat := (t / 86400 + 3) % 7

/-- Build a crossing-event row from a pool vehicle, an absolute timestamp
and a crossing location. -/
def mkRow (ts : Nat) (v : Vehicle) (loc : String) : Row :=
  { ts := ts, country_of_registration := v.country_of_registration,
    license_plate := some v.license_plate, vehicle_type := v.vehicle_type,
    colour := v.colour, brand := v.brand, location_of_crossing := loc }

/-- Embedding of the `baseline_events` closure of `generate_day_events`:
weighted country draws, then per-row plates, vehicle types, colours,
brands and crossings, then `sequential_seconds` timestamps over the whole
batch, in source draw order. -/
def baseline_events (g : Rng) (dayStart : Nat) (countries : List String)
    (weights : List Rat) (n : Nat) : List Row × Rng :=
  let (cc, g1) := drawList g n (weightedChoice countries weights "")
  let (plates, g2) := mapRng g1 cc (fun h c => random_plate h c)
  let (vtypes, g3) := choose_vehicle_type g2 n
  let (colours, g4) := drawList g3 n (choiceU COLOURS "")
  let (brands, g5) := mapRng g4 vtypes (fun h vt => choose_brand h vt)
  let (locs, g6) := mapRng g5 cc (fun h c => choose_crossing h c)
  let (secs, g7) := sequential_seconds g6 (n : Int)
  ((List.range n).map (fun i =>
    { ts := dayStart + secs.getD i 0,
      country_of_registration := cc.getD i "",
      license_plate := some (plates.getD i ""),
      vehicle_type := vtypes.getD i "",
      colour := colours.getD i "",
      brand := brands.getD i "",
      location_of_crossing := locs.getD i "" }), g7)

/-- The commuter-injection block of `generate_day_events`, weekday guard
included: inbound seconds uniform in `[05:00, 10:00)`, outbound in
`[15:00, 20:00)`, an independent keep draw per direction and commuter
(kept when `u > missing_prob`), then one re-derived crossing per kept
row, in source draw order.  Weekend days inject nothing and draw
nothing. -/
def commuter_inject (g : Rng) (dayStart : Nat) (commuters : List Vehicle)
    (missingProb : Rat) : (List Row × List Row) × Rng :=
  if weekday dayStart ≤ 4 then
    let n := commuters.length
    let (inSecs, g1) := drawList g n (fun h => h.natBetween 18000 36000)
    let (outSecs, g2) := drawList g1 n (fun h => h.natBetween 54000 72000)
    let (uIn, g3) := drawList g2 n Rng.random
    let (uOut, g4) := drawList g3 n Rng.random
    let inKept := ((commuters.zip inSecs).zip uIn).filterMap
      (fun p => if missingProb < p.2 then some p.1 else none)
    let outKept := ((commuters.zip outSecs).zip uOut).filterMap
      (fun p => if missingProb < p.2 then some p.1 else none)
    let (inLocs, g5) := mapRng g4 inKept
      (fun h p => choose_crossing h p.1.country_of_registration)
    let (outLocs, g6) := mapRng g5 outKept
      (fun h p => choose_crossing h p.1.country_of_registration)
    (((inKept.zip inLocs).map (fun q => mkRow (dayStart + q.1.2) q.1.1 q.2),
      (outKept.zip outLocs).map (fun q => mkRow (dayStart + q.1.2) q.1.1 q.2)), g6)
  else (([], []), g)

/-- The `k` draw of one active chilled vehicle: `rng.integers(2, 7)`. -/
def chilled_k (g : Rng) : Nat × Rng := g.natBetween 2 7

/-- Events of one active chilled vehicle: `k` uniform day seconds,
directions alternating by event index (even to incoming), an independent
drop draw per event, and a re-derived crossing per kept event. -/
def chilled_vehicle_events (g : Rng) (dayStart : Nat) (v : Vehicle)
    (missingProb : Rat) : (List Row × List Row) × Rng :=
  let (k, g1) := chilled_k g
  let (secs, g2) := drawList g1 k (fun h => h.natBetween 0 86400)
  let dirs := (List.range k).map (fun i => i % 2 == 0)
  (secs.zip dirs).foldl (fun acc e =>
    let (u, h1) := acc.2.random
    if u < missingProb then (acc.1, h1)
    else
      let (loc, h2) := choose_crossing h1 v.country_of_registration
      let row := mkRow (dayStart + e.1) v loc
      if e.2 then ((acc.1.1 ++ [row], acc.1.2), h2)
      else ((acc.1.1, acc.1.2 ++ [row]), h2)) (([], []), g2)

/-- The chilled-logistics injection block of `generate_day_events`: each
vehicle is independently active with probability `0.35`; each active
vehicle contributes its events in pool order. -/
def chilled_inject (g : Rng) (dayStart : Nat) (chilled : List Vehicle)
    (missingProb : Rat) : (List Row × List Row) × Rng :=
  if chilled.length > 0 then
    let (us, g1) := drawList g chilled.length Rng.random
    let active := (chilled.zip us).filterMap
      (fun p => if p.2 < 0.35 then some p.1 else none)
    active.foldl (fun acc v =>
      let (e, h1) := chilled_vehicle_events acc.2 dayStart v missingProb
      ((acc.1.1 ++ e.1, acc.1.2 ++ e.2), h1)) (([], []), g1)
  else (([], []), g)

/-- Events of one active smuggler vehicle: `k` in `[6, 20)`, `k` uniform
day seconds, `k` independent fair direction draws, an independent drop
draw per event with probability `missing_prob * 1.2`, and a re-derived
crossing per kept event. -/
def smuggler_vehicle_events (g : Rng) (dayStart : Nat) (v : Vehicle)
    (missingProb : Rat) : (List Row × List Row) × Rng :=
  let (k, g1) := g.natBetween 6 20
  let (secs, g2) := drawList g1 k (fun h => h.natBetween 0 86400)
  let (dirs, g3) := drawList g2 k
    (weightedChoice ["incoming", "outgoing"] [0.5, 0.5] "")
  (secs.zip dirs).foldl (fun acc e =>
    let (u, h1) := acc.2.random
    if u < missingProb * 1.2 then (acc.1, h1)
    else
      let (loc, h2) := choose_crossing h1 v.country_of_registration
      let row := mkRow (dayStart + e.1) v loc
      if e.2 == "incoming" then ((acc.1.1 ++ [row], acc.1.2), h2)
      else ((acc.1.1, acc.1.2 ++ [row]), h2)) (([], []), g3)

/-- The smuggler injection block of `generate_day_events`: each vehicle
is independently active with probability `0.25`; each active vehicle
contributes its events in pool order. -/
def smuggler_inject (g : Rng) (dayStart : Nat) (smugglers : List Vehicle)
    (missingProb : Rat) : (List Row × List Row) × Rng :=
  if smugglers.length > 0 then
    let (us, g1) := drawList g smugglers.length Rng.random
    let active := (smugglers.zip us).filterMap
      (fun p => if p.2 < 0.25 then some p.1 else none)
    active.foldl (fun acc v =>
      let (e, h1) := smuggler_vehicle_events acc.2 dayStart v missingProb
      ((acc.1.1 ++ e.1, acc.1.2 ++ e.2), h1)) (([], []), g1)
  else (([], []), g)

/-- Stable insertion of a row into a ts-sorted list (equal timestamps are
kept before the inserted row). -/
def insertByTs (r : Row) : List Row → List Row
  | [] => [r]
  | x :: xs => if r.ts < x.ts then r :: x :: xs else x :: insertByTs r xs

/-- Sort of a stream by ascending timestamp, standing for
`df.sort_values("ts")`.  The source uses the pandas default
(numpy introsort, an unstable sort); only the ascending order is relied
on here, and this model uses a stable insertion sort whose tie behavior
is NOT used to settle any claim (see claim C6). -/
def sortByTs (df : List Row) : List Row :=
  df.foldr insertByTs []

/-- Embedding of `generate_day_events`: two baseline batches, the
commuter, chilled and smuggler injections, concatenation in source order
(baseline, commuter rows, chilled extras, smuggler extras), the sort by
timestamp, and the two misplacement passes, threading the single shared
generator in the canonical draw order of the source. -/
def generate_day_events (g : Rng) (dayStart : Nat)
    (incomingTarget outgoingTarget : Nat)
    (countries : List String) (weights : List Rat)
    (commuters chilled smugglers : List Vehicle)
    (missingProb : Rat) (misplacePerDay misplaceMaxOffset : Int) :
    (List Row × List Row) × Rng :=
  let (incoming0, g1) := baseline_events g dayStart countries weights incomingTarget
  let (outgoing0, g2) := baseline_events g1 dayStart countries weights outgoingTarget
  let (cinj, g3) := commuter_inject g2 dayStart commuters missingProb
  let (chinj, g4) := chilled_inject g3 dayStart chilled missingProb
  let (sminj, g5) := smuggler_inject g4 dayStart smugglers missingProb
  let incoming1 := sortByTs (incoming0 ++ cinj.1 ++ chinj.1 ++ sminj.1)
  let outgoing1 := sortByTs (outgoing0 ++ cinj.2 ++ chinj.2 ++ sminj.2)
  let (incoming2, g6) :=
    apply_ingest_misplacements g5 incoming1 misplacePerDay misplaceMaxOffset
  let (outgoing2, g7) :=
    apply_ingest_misplacements g6 outgoing1 misplacePerDay misplaceMaxOffset
  ((incoming2, outgoing2), g7)

/-- A concrete generator state whose raw naturals are all `1` (so every
modelled uniform draw is the smallest positive float). -/
def rngOne : Rng :=
  { nats := fun _ => 1, exps := fun _ => 0, exps_nonneg := fun _ => le_refl 0, pos := 0 }

/-- A concrete generator state whose raw naturals are all `4`. -/
def rngFour : Rng :=
  { nats := fun _ => 4, exps := fun _ => 0, exps_nonneg := fun _ => le_refl 0, pos := 0 }

/-- A concrete commuter vehicle used to instantiate theorems. -/
def vehicleW : Vehicle :=
  { country_of_registration := "DE", license_plate := "DE-AB1234",
    vehicle_type := "passenger_car", colour := "white", brand := "VW" }

theorem cons_get_set_perm (l : List α) (j : Nat) (h : j < l.length) (a : α) :
    List.Perm (l.get ⟨j, h⟩ :: l.set j a) (a :: l) := by
  induction l generalizing j with
  | nil => exact absurd h (by simp)
  | cons b t ih =>
    cases j with
    | zero => exact List.Perm.swap a b t
    | succ m =>
      have hm : m < t.length := by simpa using h
      have step : List.Perm (t.get ⟨m, hm⟩ :: b :: t.set m a) (b :: t.get ⟨m, hm⟩ :: t.set m a) :=
        List.Perm.swap b _ _
      have mid : List.Perm (b :: t.get ⟨m, hm⟩ :: t.set m a) (b :: a :: t) :=
        List.Perm.cons b (ih m hm)
      have last : List.Perm (b :: a :: t) (a :: b :: t) := List.Perm.swap a b t
      simpa using (step.trans mid).trans last

theorem set_set_swap_perm (l : List α) (i j : Nat) (hi : i < l.length) (hj : j < l.length) :
    List.Perm ((l.set i (l.get ⟨j, hj⟩)).set j (l.get ⟨i, hi⟩)) l := by
  induction l generalizing i j with
  | nil => exact absurd hi (by simp)
  | cons b t ih =>
    cases i with
    | zero =>
      cases j with
      | zero => simp
      | succ m =>
        have hm : m < t.length := by simpa using hj
        simpa using cons_get_set_perm t m hm b
    | succ k =>
      cases j with
      | zero =>
        have hk : k < t.length := by simpa using hi
        simpa using cons_get_set_perm t k hk b
      | succ m =>
        have hk : k < t.length := by simpa using hi
        have hm : m < t.length := by simpa using hj
        simpa using List.Perm.cons b (ih k m hk hm)

theorem swapAt_perm (l : List α) (i j : Nat) (hi : i < l.length) (hj : j < l.length) :
    List.Perm (swapAt l i j) l := by
  have h1 : l.get? i = some (l.get ⟨i, hi⟩) := List.get?_eq_get hi
  have h2 : l.get? j = some (l.get ⟨j, hj⟩) := List.get?_eq_get hj
  simp only [swapAt, h1, h2]
  exact set_set_swap_perm l i j hi hj

theorem foldl_swap_perm (pairs : List (Nat × Nat)) (l0 : List α)
    (hb : ∀ p ∈ pairs, p.1 < l0.length ∧ p.2 < l0.length) :
    ∀ l, List.Perm l l0 →
      List.Perm (pairs.foldl (fun acc p => if p.1 = p.2 then acc else swapAt acc p.1 p.2) l) l0 := by
  induction pairs with
  | nil => intro l hl; simpa using hl
  | cons p ps ih =>
    intro l hl
    have hp := hb p (List.mem_cons_self p ps)
    have hb' : ∀ q ∈ ps, q.1 < l0.length ∧ q.2 < l0.length :=
      fun q hq => hb q (List.mem_cons_of_mem p hq)
    by_cases hij : p.1 = p.2
    · simpa [hij] using ih hb' l hl
    · have hlen : l.length = l0.length := hl.length_eq
      have hsw : List.Perm (swapAt l p.1 p.2) l :=
        swapAt_perm l p.1 p.2 (by rw [hlen]; exact hp.1) (by rw [hlen]; exact hp.2)
      simpa [hij] using ih hb' (swapAt l p.1 p.2) (hsw.trans hl)

theorem sampleNoReplace_mem (g : Rng) (pool : List Nat) (n : Nat) :
    ∀ x ∈ (sampleNoReplace g pool n).1, x ∈ pool := by
  induction n generalizing g pool with
  | zero => intro x hx; simp [sampleNoReplace] at hx
  | succ m ih =>
    intro x hx
    by_cases hp : pool.isEmpty
    · simp [sampleNoReplace, hp] at hx
    · have hlen : 0 < pool.length := by
        cases pool with
        | nil => simp at hp
        | cons a t => simp
      simp only [sampleNoReplace, hp, Bool.false_eq_true, if_false, List.mem_cons] at hx
      rcases hx with hx | hx
      · subst hx
        rw [List.getD_eq_getElem _ 0 (Nat.mod_lt _ hlen)]
        exact List.getElem_mem _
      · exact List.eraseIdx_subset _ _ (ih _ _ x hx)

theorem clipInt_toNat_lt (x : Int) (len : Nat) (hlen : 0 < len) :
    (clipInt x 0 ((len : Int) - 1)).toNat < len := by
  have h1 : clipInt x 0 ((len : Int) - 1) ≤ (len : Int) - 1 := by
    have hub : (0 : Int) ≤ (len : Int) - 1 := by
      omega
    exact max_le hub (min_le_right _ _)
  have h2 : (clipInt x 0 ((len : Int) - 1)).toNat ≤ ((len : Int) - 1).toNat :=
    Int.toNat_le_toNat h1
  omega

/-- C1: for every generator state, every input stream and all `perDay`,
`maxOffset`, `apply_ingest_misplacements` returns a stream of the same
length that is a permutation (same multiset of rows) of its input, and it
returns the input unchanged whenever `perDay ≤ 0`, `maxOffset ≤ 0`, or the
stream is empty. -/
theorem c1_apply_misplacements_permutes (g : Rng) (df : List α) (perDay maxOffset : Int) :
    (apply_ingest_misplacements g df perDay maxOffset).1.length = df.length ∧
    List.Perm (apply_ingest_misplacements g df perDay maxOffset).1 df ∧
    (perDay ≤ 0 ∨ maxOffset ≤ 0 ∨ df = [] →
      (apply_ingest_misplacements g df perDay maxOffset).1 = df) := by
  by_cases hguard : perDay ≤ 0 ∨ maxOffset ≤ 0 ∨ df.isEmpty
  · have happ : apply_ingest_misplacements g df perDay maxOffset = (df, g) := by
      simp only [apply_ingest_misplacements]
      exact if_pos hguard
    refine ⟨?_, ?_, ?_⟩ <;> simp [happ]
  · have hne : ¬ df.isEmpty := fun h => hguard (Or.inr (Or.inr h))
    have hlen : 0 < df.length := by
      cases df with
      | nil => simp at hne
      | cons a t => simp
    have hperm : List.Perm (apply_ingest_misplacements g df perDay maxOffset).1 df := by
      simp only [apply_ingest_misplacements, hguard, if_false]
      apply foldl_swap_perm _ df _ df (List.Perm.refl df)
      intro p hp
      have h1 := (List.of_mem_zip hp).1
      have h2 := (List.of_mem_zip hp).2
      constructor
      · have := sampleNoReplace_mem g (List.range df.length) _ p.1 h1
        exact List.mem_range.mp this
      · rcases List.mem_map.mp h2 with ⟨q, _, hq⟩
        rw [← hq]
        exact clipInt_toNat_lt _ _ hlen
    refine ⟨hperm.length_eq, hperm, ?_⟩
    intro hcase
    exfalso
    apply hguard
    rcases hcase with h | h | h
    · exact Or.inl h
    · exact Or.inr (Or.inl h)
    · exact Or.inr (Or.inr (by simp [h]))

/-- Witness for C1: at a concrete state and stream, a non-positive
`perDay` leaves the stream unchanged. -/
theorem c1_witness :
    (apply_ingest_misplacements rngZero ([0, 1, 2] : List Nat) (-1) 5).1 = [0, 1, 2] :=
  (c1_apply_misplacements_permutes rngZero [0, 1, 2] (-1) 5).2.2 (Or.inl (by decide))

theorem drawList_length (g : Rng) (n : Nat) (f : Rng → α × Rng) :
    (drawList g n f).1.length = n := by
  induction n generalizing g with
  | zero => simp [drawList]
  | succ m ih => simp [drawList, ih]

theorem drawList_nextExp_nonneg (g : Rng) (n : Nat) :
    ∀ x ∈ (drawList g n Rng.nextExp).1, 0 ≤ x := by
  induction n generalizing g with
  | zero => simp [drawList]
  | succ m ih =>
    intro x hx
    simp only [drawList, Rng.nextExp, List.mem_cons] at hx
    rcases hx with hx | hx
    · subst hx; exact g.exps_nonneg g.pos
    · exact ih _ x hx

theorem cumsumFrom_length (acc : Rat) (l : List Rat) :
    (cumsumFrom acc l).length = l.length := by
  induction l generalizing acc with
  | nil => simp [cumsumFrom]
  | cons x xs ih => simp [cumsumFrom, ih]

theorem cumsumFrom_le_mem (acc : Rat) (l : List Rat) (hl : ∀ x ∈ l, 0 ≤ x) :
    ∀ y ∈ cumsumFrom acc l, acc ≤ y := by
  induction l generalizing acc with
  | nil => simp [cumsumFrom]
  | cons x xs ih =>
    intro y hy
    simp only [cumsumFrom, List.mem_cons] at hy
    have hx : 0 ≤ x := hl x (List.mem_cons_self x xs)
    rcases hy with hy | hy
    · subst hy; linarith
    · have := ih (acc + x) (fun z hz => hl z (List.mem_cons_of_mem x hz)) y hy
      linarith

theorem cumsumFrom_sorted (acc : Rat) (l : List Rat) (hl : ∀ x ∈ l, 0 ≤ x) :
    List.Sorted (· ≤ ·) (cumsumFrom acc l) := by
  induction l generalizing acc with
  | nil => simp [cumsumFrom]
  | cons x xs ih =>
    have hxs : ∀ z ∈ xs, 0 ≤ z := fun z hz => hl z (List.mem_cons_of_mem x hz)
    rw [cumsumFrom, List.sorted_cons]
    exact ⟨fun y hy => cumsumFrom_le_mem (acc + x) xs hxs y hy, ih (acc + x) hxs⟩

theorem getLastD_mem_of_ne_nil (l : List α) (d : α) (h : l ≠ []) :
    l.getLastD d ∈ l := by
  cases l with
  | nil => exact absurd rfl h
  | cons a t =>
    rw [List.getLastD_cons]
    exact List.getLastD_mem_cons t a

theorem sorted_le_getLastD (l : List Rat) (hs : List.Sorted (· ≤ ·) l) :
    ∀ x ∈ l, x ≤ l.getLastD 0 := by
  induction l with
  | nil => simp
  | cons a t ih =>
    rcases List.sorted_cons.mp hs with ⟨ha, ht⟩
    intro x hx
    rw [List.getLastD_cons]
    rcases List.mem_cons.mp hx with rfl | hx
    · cases t with
      | nil => simp
      | cons b t2 =>
        rw [List.getLastD_cons]
        exact ha _ (List.getLastD_mem_cons t2 b)
    · cases t with
      | nil => simp at hx
      | cons b t2 =>
        have h3 := ih ht x hx
        rw [List.getLastD_cons] at h3
        rw [List.getLastD_cons]
        exact h3

theorem rat_floor_mono {a b : Rat} (h : a ≤ b) : Rat.floor a ≤ Rat.floor b := by
  rw [(Rat.floor_def' a).trans Rat.floor_def.symm, (Rat.floor_def' b).trans Rat.floor_def.symm]
  exact Int.floor_le_floor h

theorem rat_floor_86399 : Rat.floor (86399 : Rat) = 86399 := by
  rw [(Rat.floor_def' _).trans Rat.floor_def.symm]
  rw [show (86399 : Rat) = ((86399 : Nat) : Rat) by norm_cast]
  exact Int.floor_natCast _

/-- C4: for every generator state and every `n ≥ 0`, `sequential_seconds`
returns a non-decreasing sequence of exactly `n` integers, each of which
lies in `[0, 86399]` (the values are naturals, hence at least `0`); for
`n = 0` it returns the empty sequence. -/
theorem c4_sequential_seconds_spec (g : Rng) (n : Int) (hn : 0 ≤ n) :
    (sequential_seconds g n).1.length = n.toNat ∧
    List.Sorted (· ≤ ·) (sequential_seconds g n).1 ∧
    (∀ s ∈ (sequential_seconds g n).1, s ≤ 86399) ∧
    (n = 0 → (sequential_seconds g n).1 = []) := by
  by_cases hle : n ≤ 0
  · have hn0 : n = 0 := le_antisymm hle hn
    subst hn0
    simp [sequential_seconds]
  · have hpos : 0 < n := lt_of_not_le hle
    have hzero : ¬ n = 0 := by omega
    simp only [sequential_seconds, hle, if_false]
    set gaps := (drawList g n.toNat Rng.nextExp).1 with hgapsdef
    have hgapslen : gaps.length = n.toNat := drawList_length g n.toNat Rng.nextExp
    have hgapsnn : ∀ x ∈ gaps, 0 ≤ x := drawList_nextExp_nonneg g n.toNat
    set cum := cumsumFrom 0 gaps with hcumdef
    have hcumlen : cum.length = n.toNat := by
      rw [hcumdef, cumsumFrom_length, hgapslen]
    have hcumne : cum ≠ [] := by
      intro hc
      rw [hc] at hcumlen
      simp at hcumlen
      omega
    have hcumnn : ∀ y ∈ cum, 0 ≤ y := cumsumFrom_le_mem 0 gaps hgapsnn
    have hcumsorted : List.Sorted (· ≤ ·) cum := cumsumFrom_sorted 0 gaps hgapsnn
    set last := cum.getLastD 0 with hlastdef
    have hlastmem : last ∈ cum := getLastD_mem_of_ne_nil cum 0 hcumne
    have hlastnn : 0 ≤ last := hcumnn last hlastmem
    have hcumle : ∀ y ∈ cum, y ≤ last := sorted_le_getLastD cum hcumsorted
    by_cases hz : last = 0
    · simp only [hz, if_pos rfl]
      refine ⟨by simp, ?_, ?_, fun h0 => absurd h0 hzero⟩
      · exact List.pairwise_replicate.mpr (Or.inr le_rfl)
      · intro s hs
        have := List.eq_of_mem_replicate hs
        omega
    · simp only [if_neg hz]
      have hlastpos : 0 < last := lt_of_le_of_ne hlastnn (Ne.symm hz)
      refine ⟨by simp [hcumlen], ?_, ?_, fun h0 => absurd h0 hzero⟩
      · apply List.Pairwise.map
        · intro a b hab
          apply Int.toNat_le_toNat
          apply rat_floor_mono
          have h1 : a / last ≤ b / last := (div_le_div_iff_of_pos_right hlastpos).mpr hab
          nlinarith [h1]
        · exact hcumsorted
      · intro s hs
        rcases List.mem_map.mp hs with ⟨c, hc, hfc⟩
        have h1 : c ≤ last := hcumle c hc
        have h2 : c / last ≤ 1 := (div_le_one hlastpos).mpr h1
        have h3 : c / last * 86399 ≤ 86399 := by nlinarith [h2]
        have h4 : Rat.floor (c / last * 86399) ≤ Rat.floor 86399 := rat_floor_mono h3
        rw [rat_floor_86399] at h4
        have h5 := Int.toNat_le_toNat h4
        rw [← hfc]
        omega

/-- Witness for C4 at a concrete state and `n = 3`. -/
theorem c4_witness :
    (sequential_seconds rngZero 3).1.length = 3 ∧
    ∀ s ∈ (sequential_seconds rngZero 3).1, s ≤ 86399 := by
  have h := c4_sequential_seconds_spec rngZero 3 (by omega)
  exact ⟨h.1, h.2.2.1⟩

theorem drawList_nextExp_zero (g : Rng) (n : Nat) (hz : ∀ i < n, g.exps (g.pos + i) = 0) :
    (drawList g n Rng.nextExp).1 = List.replicate n 0 := by
  induction n generalizing g with
  | zero => simp [drawList]
  | succ m ih =>
    have hhead : g.exps g.pos = 0 := by
      have := hz 0 (by omega)
      simpa using this
    have htail : ∀ i < m, (g.advance 1).exps ((g.advance 1).pos + i) = 0 := by
      intro i hi
      show g.exps (g.pos + 1 + i) = 0
      have h2 : g.pos + 1 + i = g.pos + (i + 1) := by omega
      rw [h2]
      exact hz (i + 1) (by omega)
    simp [drawList, Rng.nextExp, hhead, ih _ htail, List.replicate_succ]

theorem cumsumFrom_replicate_zero (k : Nat) :
    cumsumFrom 0 (List.replicate k 0) = List.replicate k 0 := by
  induction k with
  | zero => simp [cumsumFrom]
  | succ m ih => simp [List.replicate_succ, cumsumFrom, ih]

theorem getLastD_replicate_zero (k : Nat) :
    (List.replicate k (0 : Rat)).getLastD 0 = 0 := by
  cases k with
  | zero => simp
  | succ m =>
    have hmem := getLastD_mem_of_ne_nil (List.replicate (m + 1) (0 : Rat)) 0 (by simp)
    exact List.eq_of_mem_replicate hmem

/-- C9: for every generator state and `n > 0`, if all `n` exponential gap
draws are exactly `0` (so the cumulative sum is identically zero),
`sequential_seconds` takes the guarded branch and returns the all-zero
sequence of length `n` instead of dividing by the zero final cumulative
value. -/
theorem c9_sequential_seconds_zero_gaps (g : Rng) (n : Int) (hn : 0 < n)
    (hz : ∀ i < n.toNat, g.exps (g.pos + i) = 0) :
    (sequential_seconds g n).1 = List.replicate n.toNat 0 := by
  have hle : ¬ n ≤ 0 := by omega
  simp only [sequential_seconds, hle, if_false]
  rw [drawList_nextExp_zero g n.toNat hz, cumsumFrom_replicate_zero, getLastD_replicate_zero]
  simp

/-- Witness for C9: the all-zero generator state at `n = 3` yields
`[0, 0, 0]`. -/
theorem c9_witness :
    (sequential_seconds rngZero 3).1 = List.replicate 3 0 :=
  c9_sequential_seconds_zero_gaps rngZero 3 (by omega) (fun i _ => rfl)

theorem apply_iso1_codes_eq_map (df : List Row) :
    apply_iso1_codes df = df.map iso1Row := by
  cases df <;> simp [apply_iso1_codes]

theorem splitDash_append (pre suf : List Char) (h : '-' ∉ pre) :
    splitDash (pre ++ '-' :: suf) = some (pre, suf) := by
  induction pre with
  | nil => simp [splitDash]
  | cons c cs ih =>
    have hc : ¬ c = '-' := fun hcc => h (by simp [hcc])
    have hcs : '-' ∉ cs := fun hm => h (List.mem_cons_of_mem c hm)
    simp [splitDash, hc, ih hcs]

/-- C8: length-1 country codes pass through the codec unchanged; codes in
the fixed lookup table map to their single-character entry; unmapped
multi-letter codes fall back to their first character; and for every row
whose plate has the form `pre-suf` with a dash-free `pre`,
`apply_iso1_codes` rewrites the plate to the mapped single character of
the row country code, a dash, and the unchanged remainder `suf`. -/
theorem c8_codec_spec :
    (∀ c : String, c.length = 1 → to_iso1 c = c) ∧
    (∀ p ∈ ISO1_MAP, to_iso1 p.1 = p.2) ∧
    (∀ c : String, 2 ≤ c.length → ISO1_MAP.lookup c = none → to_iso1 c = c.take 1) ∧
    (∀ (df : List Row) (i : Nat) (h : i < df.length) (pre suf : List Char),
      (df.get ⟨i, h⟩).license_plate = some (String.mk (pre ++ '-' :: suf)) →
      '-' ∉ pre →
      (apply_iso1_codes df).get? i = some
        { df.get ⟨i, h⟩ with
          country_of_registration := to_iso1 (df.get ⟨i, h⟩).country_of_registration,
          license_plate := some (to_iso1 (df.get ⟨i, h⟩).country_of_registration
            ++ "-" ++ String.mk suf) }) := by
  refine ⟨?_, ?_, ?_, ?_⟩
  · intro c hc
    have hne : ¬ c = "" := by
      intro h0
      rw [h0] at hc
      simp at hc
    simp [to_iso1, hne, hc]
  · decide
  · intro c hc hnone
    have hne : ¬ c = "" := by
      intro h0
      rw [h0] at hc
      simp at hc
    have h1 : ¬ c.length = 1 := by omega
    simp [to_iso1, hne, h1, hnone]
  · intro df i h pre suf hplate hpre
    have hrow : iso1Row (df.get ⟨i, h⟩) =
        { df.get ⟨i, h⟩ with
          country_of_registration := to_iso1 (df.get ⟨i, h⟩).country_of_registration,
          license_plate := some (to_iso1 (df.get ⟨i, h⟩).country_of_registration
            ++ "-" ++ String.mk suf) } := by
      rw [iso1Row, hplate]
      rw [show ((some (String.mk (pre ++ '-' :: suf))).bind (fun p => splitDash p.toList))
            = splitDash (pre ++ '-' :: suf) from rfl]
      rw [splitDash_append pre suf hpre]
      rfl
    rw [apply_iso1_codes_eq_map, List.get?_map, List.get?_eq_get h, Option.map_some', hrow]

/-- Witness for C8 at concrete inputs: a length-1 code, a mapped code, an
unmapped code, and a one-row frame with plate `DE-AB1234`. -/
theorem c8_witness :
    to_iso1 "X" = "X" ∧ to_iso1 "DE" = "D" ∧ to_iso1 "ZZ" = "Z" ∧
    (apply_iso1_codes
        [{ ts := 0, country_of_registration := "DE",
           license_plate := some (String.mk (['D', 'E'] ++ '-' :: ['A', 'B', '1'])),
           vehicle_type := "passenger_car", colour := "red", brand := "VW",
           location_of_crossing := "Basel" }]).get? 0 = some
      { ts := 0, country_of_registration := to_iso1 "DE",
        license_plate := some (to_iso1 "DE" ++ "-" ++ String.mk ['A', 'B', '1']),
        vehicle_type := "passenger_car", colour := "red", brand := "VW",
        location_of_crossing := "Basel" } := by
  refine ⟨c8_codec_spec.1 "X" (by decide), c8_codec_spec.2.1 ("DE", "D") (by decide),
    c8_codec_spec.2.2.1 "ZZ" (by decide) (by decide), ?_⟩
  exact c8_codec_spec.2.2.2 _ 0 (by decide) ['D', 'E'] ['A', 'B', '1'] rfl (by decide)

/-- C10: `apply_iso1_codes` preserves the row count and row order and
leaves every column other than the country and plate columns unchanged;
the empty frame is returned entirely unchanged. -/
theorem c10_apply_iso1_frame_effect (df : List Row) :
    (apply_iso1_codes df).length = df.length ∧
    (∀ (i : Nat) (h : i < df.length) (h2 : i < (apply_iso1_codes df).length),
      ((apply_iso1_codes df).get ⟨i, h2⟩).ts = (df.get ⟨i, h⟩).ts ∧
      ((apply_iso1_codes df).get ⟨i, h2⟩).vehicle_type = (df.get ⟨i, h⟩).vehicle_type ∧
      ((apply_iso1_codes df).get ⟨i, h2⟩).colour = (df.get ⟨i, h⟩).colour ∧
      ((apply_iso1_codes df).get ⟨i, h2⟩).brand = (df.get ⟨i, h⟩).brand ∧
      ((apply_iso1_codes df).get ⟨i, h2⟩).location_of_crossing
        = (df.get ⟨i, h⟩).location_of_crossing) ∧
    apply_iso1_codes [] = [] := by
  refine ⟨?_, ?_, by simp [apply_iso1_codes]⟩
  · rw [apply_iso1_codes_eq_map, List.length_map]
  · intro i h h2
    have hget : (apply_iso1_codes df).get ⟨i, h2⟩ = iso1Row (df.get ⟨i, h⟩) := by
      have := apply_iso1_codes_eq_map df
      rw [List.get_of_eq this, List.get_map]
    rw [hget]
    simp [iso1Row]

/-- Witness for C10 at a concrete one-row frame. -/
theorem c10_witness :
    ((apply_iso1_codes
        [{ ts := 7, country_of_registration := "FR",
           license_plate := some "FR-XY0001",
           vehicle_type := "truck", colour := "blue", brand := "Volvo",
           location_of_crossing := "Geneve" }]).get ⟨0, by decide⟩).ts = 7 := by
  exact (c10_apply_iso1_frame_effect _).2.1 0 (by decide) (by decide) |>.1

theorem random_nonneg (g : Rng) : 0 ≤ (Rng.random g).1 := by
  unfold Rng.random
  positivity

theorem uniformIn_le (g : Rng) (lo hi : Rat) (h : lo ≤ hi) :
    lo ≤ (Rng.uniformIn g lo hi).1 := by
  unfold Rng.uniformIn
  have hu := random_nonneg g
  have : 0 ≤ (hi - lo) * (Rng.random g).1 := by
    apply mul_nonneg (by linarith) hu
  simp only
  linarith

theorem mapRng_length (g : Rng) (xs : List α) (f : Rng → α → β × Rng) :
    (mapRng g xs f).1.length = xs.length := by
  induction xs generalizing g with
  | nil => simp [mapRng]
  | cons x rest ih => simp [mapRng, ih]

theorem drawGroupWeights_fst (g : Rng) (cs : List String) (rg : String → Rat × Rat) :
    ((drawGroupWeights g cs rg).1.map (fun p => p.1)) = cs := by
  induction cs generalizing g with
  | nil => simp [drawGroupWeights, mapRng]
  | cons c rest ih =>
    simp only [drawGroupWeights, mapRng, List.map_cons]
    exact congrArg (List.cons c) (ih _)

theorem drawGroupWeights_pos (g : Rng) (cs : List String) (rg : String → Rat × Rat)
    (h : ∀ c ∈ cs, 0 < (rg c).1 ∧ (rg c).1 ≤ (rg c).2) :
    ∀ p ∈ (drawGroupWeights g cs rg).1, 0 < p.2 := by
  induction cs generalizing g with
  | nil => simp [drawGroupWeights, mapRng]
  | cons c rest ih =>
    intro p hp
    simp only [drawGroupWeights, mapRng, List.mem_cons] at hp
    rcases hp with hp | hp
    · have hc := h c (List.mem_cons_self c rest)
      have := uniformIn_le g (rg c).1 (rg c).2 hc.2
      subst hp
      simp only
      linarith [hc.1]
    · exact ih _ (fun d hd => h d (List.mem_cons_of_mem c hd)) p hp

theorem sum_map_div (l : List Rat) (s : Rat) :
    (l.map (fun x => x / s)).sum = l.sum / s := by
  induction l with
  | nil => simp
  | cons x xs ih => simp [ih, add_div]

theorem NEAR_WEIGHTS_pos : ∀ p ∈ NEAR_WEIGHTS, 0 < p.2 := by
  intro p hp
  fin_cases hp <;> norm_num

/-- C3: for every generator state, `build_country_weights` returns a
weight vector that sums to `1` exactly (hence within the `1e-9`
tolerance) with every weight strictly positive, and its country list is
exactly the configured groups `NEAR ++ MID ++ FAR ++ BALKAN ++
OTHER_EUROPE` (so every configured country carries a strictly positive
weight). -/
theorem c3_build_country_weights (g : Rng) :
    |((build_country_weights g).1.2).sum - 1| ≤ 1 / 1000000000 ∧
    (∀ wt ∈ (build_country_weights g).1.2, 0 < wt) ∧
    (build_country_weights g).1.1 = NEAR ++ MID ++ FAR ++ BALKAN ++ OTHER_EUROPE := by
  simp only [build_country_weights]
  set m := (drawGroupWeights g MID (fun _ => (0.005, 0.02))).1 with hm
  set g1 := (drawGroupWeights g MID (fun _ => (0.005, 0.02))).2 with hg1
  set f := (drawGroupWeights g1 FAR farRange).1 with hf
  set g2 := (drawGroupWeights g1 FAR farRange).2 with hg2
  set b := (drawGroupWeights g2 BALKAN balkanRange).1 with hb
  set g3 := (drawGroupWeights g2 BALKAN balkanRange).2 with hg3
  set o := (drawGroupWeights g3 OTHER_EUROPE (fun _ => (0.002, 0.012))).1 with ho
  have hmpos : ∀ p ∈ m, 0 < p.2 := by
    apply drawGroupWeights_pos
    intro c _
    norm_num
  have hfpos : ∀ p ∈ f, 0 < p.2 := by
    apply drawGroupWeights_pos
    intro c _
    unfold farRange
    split_ifs <;> norm_num
  have hbpos : ∀ p ∈ b, 0 < p.2 := by
    apply drawGroupWeights_pos
    intro c _
    unfold balkanRange
    split_ifs <;> norm_num
  have hopos : ∀ p ∈ o, 0 < p.2 := by
    apply drawGroupWeights_pos
    intro c _
    norm_num
  set w := NEAR_WEIGHTS ++ m ++ f ++ b ++ o with hw
  have hwpos : ∀ p ∈ w, 0 < p.2 := by
    intro p hp
    rw [hw] at hp
    simp only [List.append_assoc, List.mem_append] at hp
    rcases hp with hp | hp | hp | hp | hp
    · exact NEAR_WEIGHTS_pos p hp
    · exact hmpos p hp
    · exact hfpos p hp
    · exact hbpos p hp
    · exact hopos p hp
  set weights := w.map (fun p => p.2) with hweights
  have hvpos : ∀ x ∈ weights, 0 < x := by
    intro x hx
    rcases List.mem_map.mp hx with ⟨p, hp, hpx⟩
    rw [← hpx]
    exact hwpos p hp
  have hne : weights ≠ [] := by
    rw [hweights, hw]
    simp [NEAR_WEIGHTS]
  have hspos : 0 < weights.sum := List.sum_pos weights hvpos hne
  refine ⟨?_, ?_, ?_⟩
  · rw [sum_map_div, div_self (ne_of_gt hspos)]
    norm_num
  · intro wt hwt
    rcases List.mem_map.mp hwt with ⟨x, hx, hxwt⟩
    rw [← hxwt]
    exact div_pos (hvpos x hx) hspos
  · rw [hw]
    simp only [List.map_append]
    rw [drawGroupWeights_fst, drawGroupWeights_fst, drawGroupWeights_fst,
      drawGroupWeights_fst]
    rfl

/-- Witness for C3 at a concrete generator state. -/
theorem c3_witness :
    |((build_country_weights rngZero).1.2).sum - 1| ≤ 1 / 1000000000 ∧
    (build_country_weights rngZero).1.1
      = NEAR ++ MID ++ FAR ++ BALKAN ++ OTHER_EUROPE :=
  ⟨(c3_build_country_weights rngZero).1, (c3_build_country_weights rngZero).2.2⟩

theorem rng_ext (g1 g2 : Rng) (hn : ∀ k, g1.nats k = g2.nats k)
    (he : ∀ k, g1.exps k = g2.exps k) (hp : g1.pos = g2.pos) : g1 = g2 := by
  cases g1 with
  | mk n1 e1 hne1 p1 =>
    cases g2 with
    | mk n2 e2 hne2 p2 =>
      have hn2 : n1 = n2 := funext hn
      have he2 : e1 = e2 := funext he
      subst hn2
      subst he2
      simp only at hp
      subst hp
      rfl

/-- C2: the per-day incoming and outgoing batches of
`generate_day_events` are a deterministic function of the generator state
and the arguments: two runs from extensionally equal generator states
with the same arguments produce identical batches (the embedding is a
pure function of the state, with no other source of nondeterminism). -/
theorem c2_generate_day_events_deterministic
    (g1 g2 : Rng) (hn : ∀ k, g1.nats k = g2.nats k)
    (he : ∀ k, g1.exps k = g2.exps k) (hp : g1.pos = g2.pos)
    (dayStart incomingTarget outgoingTarget : Nat)
    (countries : List String) (weights : List Rat)
    (commuters chilled smugglers : List Vehicle)
    (missingProb : Rat) (misplacePerDay misplaceMaxOffset : Int) :
    generate_day_events g1 dayStart incomingTarget outgoingTarget countries
        weights commuters chilled smugglers missingProb misplacePerDay
        misplaceMaxOffset
      = generate_day_events g2 dayStart incomingTarget outgoingTarget countries
        weights commuters chilled smugglers missingProb misplacePerDay
        misplaceMaxOffset := by
  rw [rng_ext g1 g2 hn he hp]

/-- Witness for C2 at concrete equal states and arguments. -/
theorem c2_witness :
    generate_day_events rngZero 345600 2 2 ["DE"] [1] [vehicleW] [] [] 0 0 0
      = generate_day_events rngZero 345600 2 2 ["DE"] [1] [vehicleW] [] [] 0 0 0 :=
  c2_generate_day_events_deterministic rngZero rngZero (fun _ => rfl)
    (fun _ => rfl) rfl 345600 2 2 ["DE"] [1] [vehicleW] [] [] 0 0 0

/-- C7 counterexample: the claim says an active chilled vehicle schedules
`k` events with `k` uniform in `[2, 6)`, i.e. `k ≤ 5`; at a generator
state whose raw draw is `4`, the code's `rng.integers(2, 7)` draw is
`k = 6`, outside `[2, 6)`. -/
theorem c7_counterexample :
    (chilled_k rngFour).1 = 6 ∧ ¬ ((chilled_k rngFour).1 < 6) := by
  decide

/-- C7 (amended): the number of events an active chilled vehicle
schedules is the `chilled_k` draw, a uniform integer in `[2, 7)` (so one
of 2, 3, 4, 5 or 6), not `[2, 6)` as claimed. -/
theorem c7_chilled_k_range (g : Rng) :
    2 ≤ (chilled_k g).1 ∧ (chilled_k g).1 < 7 := by
  unfold chilled_k Rng.natBetween
  have h : g.nats g.pos % (7 - 2) < 5 := Nat.mod_lt _ (by omega)
  omega

theorem drawList_nats_eq (g : Rng) (n : Nat) (f : Rng → α × Rng)
    (hf : ∀ h, ((f h).2).nats = h.nats) : ((drawList g n f).2).nats = g.nats := by
  induction n generalizing g with
  | zero => rfl
  | succ m ih =>
    show ((drawList (f g).2 m f).2).nats = g.nats
    rw [ih ((f g).2), hf g]

theorem drawList_random_pos (g : Rng) (n : Nat) (hA : ∀ k, g.nats k % M53 ≠ 0) :
    ∀ u ∈ (drawList g n Rng.random).1, 0 < u := by
  induction n generalizing g with
  | zero => simp [drawList]
  | succ m ih =>
    intro u hu
    simp only [drawList, List.mem_cons] at hu
    rcases hu with hu | hu
    · subst hu
      show 0 < ((g.nats g.pos % M53 : Nat) : Rat) / (M53 : Rat)
      apply div_pos
      · have h1 : 0 < g.nats g.pos % M53 := Nat.pos_of_ne_zero (hA g.pos)
        exact_mod_cast h1
      · have h2 : (0 : Nat) < M53 := by
          rw [M53]
          positivity
        exact_mod_cast h2
    · exact ih (Rng.random g).2 hA u hu

theorem drawList_natBetween_mem (g : Rng) (n lo hi : Nat) (hlh : lo < hi) :
    ∀ s ∈ (drawList g n (fun h => h.natBetween lo hi)).1, lo ≤ s ∧ s < hi := by
  induction n generalizing g with
  | zero => simp [drawList]
  | succ m ih =>
    intro s hs
    simp only [drawList, List.mem_cons] at hs
    rcases hs with hs | hs
    · subst hs
      show lo ≤ lo + g.nats g.pos % (hi - lo) ∧ lo + g.nats g.pos % (hi - lo) < hi
      have h2 : g.nats g.pos % (hi - lo) < hi - lo := Nat.mod_lt _ (by omega)
      omega
    · exact ih _ s hs

theorem filterMap_keep_all (l : List (α × Rat)) (mp : Rat)
    (h : ∀ p ∈ l, mp < p.2) :
    l.filterMap (fun p => if mp < p.2 then some p.1 else none)
      = l.map (fun p => p.1) := by
  induction l with
  | nil => rfl
  | cons x xs ih =>
    have hx : mp < x.2 := h x (List.mem_cons_self x xs)
    have ihh := ih (fun p hp => h p (List.mem_cons_of_mem x hp))
    simp [List.filterMap_cons, hx, ihh]

theorem kept_rows_ts_bound (dayStart lo hi : Nat) (commuters : List Vehicle)
    (secs : List Nat) (us : List Rat) (locs : List String) (mp : Rat)
    (hsecs : ∀ s ∈ secs, lo ≤ s ∧ s < hi) :
    ∀ r ∈ ((((commuters.zip secs).zip us).filterMap
        (fun p => if mp < p.2 then some p.1 else none)).zip locs).map
        (fun q => mkRow (dayStart + q.1.2) q.1.1 q.2),
      dayStart + lo ≤ r.ts ∧ r.ts < dayStart + hi := by
  intro r hr
  rcases List.mem_map.mp hr with ⟨q, hq, hqr⟩
  have hq1 := (List.of_mem_zip hq).1
  rcases List.mem_filterMap.mp hq1 with ⟨p, hp, hpq⟩
  have hps : p.1.2 ∈ secs := (List.of_mem_zip (List.of_mem_zip hp).1).2
  have hpq1 : p.1 = q.1 := by
    by_cases hmp : mp < p.2
    · simpa [hmp] using hpq
    · simp [hmp] at hpq
  have hb := hsecs _ hps
  rw [← hqr]
  simp only [mkRow]
  rw [← hpq1]
  exact ⟨by omega, by omega⟩

/-- C5 (amended): on a weekday with `missing_prob = 0`, provided every
uniform draw of the generator state is nonzero (the almost-sure case:
the code keeps a commuter row only when its keep draw `u` satisfies
`u > 0`, and a numpy uniform draw can be exactly `0.0`), the commuter
injection adds exactly one incoming row per commuter with timestamp in
`[05:00, 10:00)` and exactly one outgoing row per commuter with
timestamp in `[15:00, 20:00)`; on weekend days it adds zero rows to
either stream. -/
theorem c5_commuter_inject_spec (g : Rng) (dayStart : Nat)
    (commuters : List Vehicle) :
    (weekday dayStart ≤ 4 → (∀ k, g.nats k % M53 ≠ 0) →
      ((commuter_inject g dayStart commuters 0).1.1.length = commuters.length ∧
       (commuter_inject g dayStart commuters 0).1.2.length = commuters.length ∧
       (∀ r ∈ (commuter_inject g dayStart commuters 0).1.1,
         dayStart + 18000 ≤ r.ts ∧ r.ts < dayStart + 36000) ∧
       (∀ r ∈ (commuter_inject g dayStart commuters 0).1.2,
         dayStart + 54000 ≤ r.ts ∧ r.ts < dayStart + 72000))) ∧
    (∀ mp : Rat, 4 < weekday dayStart →
      commuter_inject g dayStart commuters mp = (([], []), g)) := by
  constructor
  · intro hwk hA
    simp only [commuter_inject, hwk, if_true]
    set n := commuters.length with hn
    set S1 := drawList g n (fun h => h.natBetween 18000 36000) with hS1
    set S2 := drawList S1.2 n (fun h => h.natBetween 54000 72000) with hS2
    set S3 := drawList S2.2 n Rng.random with hS3
    set S4 := drawList S3.2 n Rng.random with hS4
    have h1n : (S1.2).nats = g.nats := by
      rw [hS1]
      exact drawList_nats_eq g n _ (fun h => rfl)
    have h2n : (S2.2).nats = g.nats := by
      rw [hS2, drawList_nats_eq S1.2 n _ (fun h => rfl), h1n]
    have h3n : (S3.2).nats = g.nats := by
      rw [hS3, drawList_nats_eq S2.2 n _ (fun h => rfl), h2n]
    have hA2 : ∀ k, (S2.2).nats k % M53 ≠ 0 := by
      intro k
      rw [h2n]
      exact hA k
    have hA3 : ∀ k, (S3.2).nats k % M53 ≠ 0 := by
      intro k
      rw [h3n]
      exact hA k
    have huIn : ∀ u ∈ S3.1, 0 < u := by
      rw [hS3]
      exact drawList_random_pos S2.2 n hA2
    have huOut : ∀ u ∈ S4.1, 0 < u := by
      rw [hS4]
      exact drawList_random_pos S3.2 n hA3
    have hkeepIn : ∀ p ∈ (commuters.zip S1.1).zip S3.1, (0 : Rat) < p.2 :=
      fun p hp => huIn p.2 (List.of_mem_zip hp).2
    have hkeepOut : ∀ p ∈ (commuters.zip S2.1).zip S4.1, (0 : Rat) < p.2 :=
      fun p hp => huOut p.2 (List.of_mem_zip hp).2
    have hInKept := filterMap_keep_all _ 0 hkeepIn
    have hOutKept := filterMap_keep_all _ 0 hkeepOut
    have hS1len : S1.1.length = n := by
      rw [hS1]
      exact drawList_length _ _ _
    have hS2len : S2.1.length = n := by
      rw [hS2]
      exact drawList_length _ _ _
    have hS3len : S3.1.length = n := by
      rw [hS3]
      exact drawList_length _ _ _
    have hS4len : S4.1.length = n := by
      rw [hS4]
      exact drawList_length _ _ _
    have hzin : ((commuters.zip S1.1).zip S3.1).length = n := by
      rw [List.length_zip, List.length_zip, hS1len, hS3len, ← hn]
      simp
    have hzout : ((commuters.zip S2.1).zip S4.1).length = n := by
      rw [List.length_zip, List.length_zip, hS2len, hS4len, ← hn]
      simp
    refine ⟨?_, ?_, ?_, ?_⟩
    · rw [List.length_map, List.length_zip, mapRng_length, hInKept,
        List.length_map, hzin]
      simp
    · rw [List.length_map, List.length_zip, mapRng_length, hOutKept,
        List.length_map, hzout]
      simp
    · exact kept_rows_ts_bound dayStart 18000 36000 commuters S1.1 S3.1 _ 0
        (by rw [hS1]; exact drawList_natBetween_mem g n 18000 36000 (by omega))
    · exact kept_rows_ts_bound dayStart 54000 72000 commuters S2.1 S4.1 _ 0
        (by rw [hS2]; exact drawList_natBetween_mem S1.2 n 54000 72000 (by omega))
  · intro mp hw
    have hnot : ¬ (weekday dayStart ≤ 4) := by omega
    simp [commuter_inject, hnot]

/-- Witness for C5 (amended) at a Monday (`dayStart = 345600`, epoch day
4), one commuter, and a state whose raw draws are all `1`. -/
theorem c5_witness :
    (commuter_inject rngOne 345600 [vehicleW] 0).1.1.length = [vehicleW].length ∧
    (commuter_inject rngOne 345600 [vehicleW] 0).1.2.length = [vehicleW].length := by
  have h := (c5_commuter_inject_spec rngOne 345600 [vehicleW]).1 (by decide)
    (fun k => by show (1 : Nat) % M53 ≠ 0; norm_num [M53])
  exact ⟨h.1, h.2.1⟩

/-- C5 counterexample: on a Monday with `missing_prob = 0` and one
commuter, the all-zero generator state (whose uniform keep draws are
exactly `0.0`, which numpy can produce) yields zero incoming commuter
rows, not exactly one per commuter as the claim states: the code keeps a
row only when its uniform draw is strictly greater than `missing_prob`. -/
theorem c5_counterexample :
    weekday 345600 ≤ 4 ∧
    (commuter_inject rngZero 345600 [vehicleW] 0).1.1.length = 0 := by
  refine ⟨by decide, ?_⟩
  have hwk : weekday 345600 ≤ 4 := by decide
  simp only [commuter_inject, hwk, if_true]
  norm_num [drawList, mapRng, Rng.natBetween, Rng.random, Rng.advance, rngZero, M53]
